import Mathlib

/-
Verification of the two scripts of this repository against their
natural-language specification.

The embedding works over `List Char` as the byte-faithful model of Python
strings (all strings involved are ASCII plus a few fixed literals).

Modelled code:
  scripts/daily_report.py : ensure_readme_section, top_languages,
    recent_activity, markets_snapshot (the parts the claims are about)
  scripts/heartbeat.py    : the whole script

Network fetches are modelled as explicit arguments carrying the upstream
response; a raised Python exception is modelled as `Except.error ()`.
-/

/-- Start marker of the delimited README region (daily_report.py, line 14). -/
def START : List Char := "<!-- DAILY-SECTION:START -->".data

/-- End marker of the delimited README region (daily_report.py, line 15). -/
def END : List Char := "<!-- DAILY-SECTION:END -->".data

/-- Boolean test that the first list is a leading segment of the second,
used to locate occurrences of a marker in a document. -/
def isPre : List Char → List Char → Bool
  | [], _ => true
  | _ :: _, [] => false
  | c :: m, d :: s => c == d && isPre m s

/-- Leftmost occurrence of `m` inside `s`: returns the text before the
occurrence and the text after it, or `none` when `m` does not occur.
This is the primitive in terms of which both the Python substring test
(`START in txt`) and the leftmost regex match are modelled. -/
def splitFirst (m : List Char) : List Char → Option (List Char × List Char)
  | [] => if isPre m [] then some ([], []) else none
  | c :: rest =>
    if isPre m (c :: rest) then some ([], (c :: rest).drop m.length)
    else (splitFirst m rest).map fun p => (c :: p.1, p.2)

/-- Model of the Python substring test `m in s`. -/
def containsSub (m s : List Char) : Bool := (splitFirst m s).isSome

/-- Whether the regex `START.*?END` (DOTALL) has at least one match in `s`:
there is a START occurrence with an END occurrence somewhere after it. -/
def hasRegion (s : List Char) : Bool :=
  match splitFirst START s with
  | none => false
  | some (_, r) => containsSub END r

/-- One item of a parsed re.sub replacement template: a literal character
or a reference to group 0, the whole match.  The pattern compiled at
daily_report.py line 205 has no capture groups and an empty group-name
table, so group 0 is the only group a template can mention without
raising. -/
inductive TItem where
  | lit : Char → TItem
  | group : TItem
deriving DecidableEq

/-- Octal digit test for template escapes. -/
def isOct (c : Char) : Bool := 48 ≤ c.toNat && c.toNat ≤ 55

/-- Decimal digit test for template group references. -/
def isDec (c : Char) : Bool := 48 ≤ c.toNat && c.toNat ≤ 57

/-- ASCII letter test; an unknown template escape of an ASCII letter
raises re.error (bad escape). -/
def isAsciiLetter (c : Char) : Bool :=
  (97 ≤ c.toNat && c.toNat ≤ 122) || (65 ≤ c.toNat && c.toNat ≤ 90)

/-- Numeric value of a digit character. -/
def digitVal (c : Char) : Nat := c.toNat - 48

/-- The known single-letter escapes of a replacement template. -/
def escChar : Char → Option Char
  | 'a' => some '\x07'
  | 'b' => some '\x08'
  | 'f' => some '\x0c'
  | 'n' => some '\n'
  | 'r' => some '\x0d'
  | 't' => some '\t'
  | 'v' => some '\x0b'
  | _ => none

/-- Reads a group name up to the closing angle bracket; `none` when the
bracket never comes (re.error, unterminated name). -/
def takeName : List Char → Option (List Char × List Char)
  | [] => none
  | c :: rest =>
    if c = '>' then some ([], rest)
    else (takeName rest).map fun p => (c :: p.1, p.2)

/-- Numeric value of a digit string. -/
def digitsVal (s : List Char) : Nat := s.foldl (fun n c => n * 10 + digitVal c) 0

/-- Fuel-indexed worker for `parse_template`; every step consumes at least
one character, so fuel beyond the length never runs out. -/
def parse_templateF : Nat → List Char → Except Unit (List TItem)
  | 0, _ => Except.error ()
  | fuel + 1, s =>
    match s with
    | [] => Except.ok []
    | c :: rest =>
      if c = '\\' then
        match rest with
        | [] => Except.error ()
        | e :: rest2 =>
          if e = '\\' then (parse_templateF fuel rest2).map (TItem.lit '\\' :: ·)
          else if e = 'g' then
            match rest2 with
            | '<' :: rest3 =>
              match takeName rest3 with
              | none => Except.error ()
              | some ([], _) => Except.error ()
              | some (name, rest4) =>
                if name.all isDec then
                  if digitsVal name = 0 then
                    (parse_templateF fuel rest4).map (TItem.group :: ·)
                  else Except.error ()
                else Except.error ()
            | _ => Except.error ()
          else if e = '0' then
            match rest2 with
            | d1 :: rest3 =>
              if isOct d1 then
                match rest3 with
                | d2 :: rest4 =>
                  if isOct d2 then
                    (parse_templateF fuel rest4).map
                      (TItem.lit (Char.ofNat (digitVal d1 * 8 + digitVal d2)) :: ·)
                  else
                    (parse_templateF fuel rest3).map
                      (TItem.lit (Char.ofNat (digitVal d1)) :: ·)
                | [] => Except.ok [TItem.lit (Char.ofNat (digitVal d1))]
              else (parse_templateF fuel rest2).map (TItem.lit (Char.ofNat 0) :: ·)
            | [] => Except.ok [TItem.lit (Char.ofNat 0)]
          else if isDec e then
            match rest2 with
            | d2 :: rest3 =>
              if isDec d2 then
                if isOct e && isOct d2 then
                  match rest3 with
                  | d3 :: rest4 =>
                    if isOct d3 then
                      (parse_templateF fuel rest4).map
                        (TItem.lit (Char.ofNat
                          ((digitVal e * 64 + digitVal d2 * 8 + digitVal d3) % 256)) :: ·)
                    else Except.error ()
                  | [] => Except.error ()
                else Except.error ()
              else Except.error ()
            | [] => Except.error ()
          else
            match escChar e with
            | some ch => (parse_templateF fuel rest2).map (TItem.lit ch :: ·)
            | none =>
              if isAsciiLetter e then Except.error ()
              else
                (parse_templateF fuel rest2).map fun ts => TItem.lit '\\' :: TItem.lit e :: ts
      else (parse_templateF fuel rest).map (TItem.lit c :: ·)

/-- Model of the re module template parser applied to the replacement
string of daily_report.py lines 204-209, specialized to the compiled
pattern (no capture groups, empty group-name table): a doubled backslash
yields a literal backslash, the known letter escapes and the octal escapes
yield their characters, a reference to group 0 yields the whole match,
every positive group reference and every unknown ASCII-letter escape
raises re.error, a backslash before any other character stays as the two
characters, and a trailing lone backslash raises.  The parse happens when
re.sub is invoked, before and independently of any match. -/
def parse_template (s : List Char) : Except Unit (List TItem) :=
  parse_templateF (s.length + 1) s

/-- Expansion of a parsed template at one match: the literals stand for
themselves, the group item for the whole matched text. -/
def expandTemplate : List TItem → List Char → List Char
  | [], _ => []
  | TItem.lit c :: rest, matched => c :: expandTemplate rest matched
  | TItem.group :: rest, matched => matched ++ expandTemplate rest matched

/-- Fuel-indexed worker for `subRegions`; the fuel only serves to make the
recursion structural, `s.length` is always enough. -/
def subRegionsF (items : List TItem) : Nat → List Char → List Char
  | 0, s => s
  | fuel + 1, s =>
    match splitFirst START s with
    | none => s
    | some (a, r) =>
      match splitFirst END r with
      | none => s
      | some (m, c) =>
          a ++ expandTemplate items (START ++ (m ++ END)) ++ subRegionsF items fuel c

/-- Model of the match-and-replace pass of `re.sub(re.escape(START) +
".*?" + re.escape(END), repl, txt, flags=re.DOTALL)` (daily_report.py,
lines 204-209) once the template has been parsed: every non-overlapping
leftmost-shortest span from a START marker to the next END marker is
replaced by the expansion of the template at that match. -/
def subRegions (items : List TItem) (s : List Char) : List Char :=
  subRegionsF items s.length s

/-- The whitespace alphabet of Python str.strip and str.rstrip: the ASCII
whitespace characters, the separator controls 28-31, next line, no-break
space, and the Unicode space characters. -/
def pySpace (c : Char) : Bool :=
  c == ' ' || c == '\t' || c == '\n' || c == '\r' || c == '\x0b' || c == '\x0c' ||
  (28 ≤ c.toNat && c.toNat ≤ 31) || c.toNat == 133 || c.toNat == 160 ||
  c.toNat == 5760 || (8192 ≤ c.toNat && c.toNat ≤ 8202) || c.toNat == 8232 ||
  c.toNat == 8233 || c.toNat == 8239 || c.toNat == 8287 || c.toNat == 12288

/-- Model of Python `txt.rstrip()`: removes the trailing run of whitespace. -/
def rstrip : List Char → List Char
  | [] => []
  | c :: s =>
    match rstrip s with
    | [] => if pySpace c then [] else [c]
    | d :: r => c :: d :: r

/-- Replacement text used by the regex substitution: the two markers wrapping
the new content, `f"{START}\n{content}\n{END}"`. -/
def replacementFor (content : List Char) : List Char :=
  START ++ '\n' :: (content ++ '\n' :: END)

/-- Result of one `ensure_readme_section` run: the on-disk document text
after the run and the returned change flag (True exactly when the file was
written). -/
structure WriteResult where
  text : List Char
  wrote : Bool
deriving DecidableEq

/-- Model of `ensure_readme_section(content)` (daily_report.py, lines
198-215).  `disk` is the prior state of README.md (`none` when the file
does not exist), `repoFull` the REPO_FULL environment value.  An
`Except.error` result is the re.error that re.sub raises out of the
function while parsing its replacement template; the create and append
branches build their text with f-strings and cannot raise. -/
def ensure_readme_section (repoFull content : List Char) (disk : Option (List Char)) :
    Except Unit WriteResult :=
  match disk with
  | none =>
      Except.ok
        ⟨'#' :: ' ' :: (repoFull ++ '\n' :: '\n' :: (replacementFor content ++ ['\n'])), true⟩
  | some txt =>
      if containsSub START txt && containsSub END txt then
        match parse_template (replacementFor content) with
        | Except.error e => Except.error e
        | Except.ok items =>
            let new := subRegions items txt
            Except.ok ⟨new, new != txt⟩
      else
        let new := rstrip txt ++ ('\n' :: '\n' :: (replacementFor content ++ ['\n']))
        Except.ok ⟨new, new != txt⟩

/-- Text left on disk by a completed splice run; `none` when the run
raised (the file is then untouched, but no result is reported at all). -/
def spliceResultText : Except Unit WriteResult → Option (List Char)
  | Except.error _ => none
  | Except.ok w => some w.text

/-- Change flag returned by a completed splice run; `none` when the run
raised. -/
def spliceResultWrote : Except Unit WriteResult → Option Bool
  | Except.error _ => none
  | Except.ok w => some w.wrote

/-- Two consecutive runs of the splice with identical content: the second
run reads the document the first run left on disk. -/
def spliceTwice (repoFull content : List Char) (disk : Option (List Char)) :
    Except Unit WriteResult :=
  match ensure_readme_section repoFull content disk with
  | Except.error e => Except.error e
  | Except.ok w => ensure_readme_section repoFull content (some w.text)

/-- Document consisting of a sequence of delimited regions: before each
region some free text `p.1`, inside it some prior content `p.2`, and after
the last region a tail `t`. -/
def origChain : List (List Char × List Char) → List Char → List Char
  | [], t => t
  | (a, m) :: ps, t => a ++ (START ++ (m ++ (END ++ origChain ps t)))

/-- The same document after every delimited region has been replaced by
`repl`. -/
def replChain (repl : List Char) : List (List Char × List Char) → List Char → List Char
  | [], t => t
  | (a, _) :: ps, t => a ++ (repl ++ replChain repl ps t)

/-- The chain document after every delimited region has been replaced by
the expansion of a parsed template at the match covering that region. -/
def replChainT (items : List TItem) : List (List Char × List Char) → List Char → List Char
  | [], t => t
  | (a, m) :: ps, t =>
      a ++ (expandTemplate items (START ++ (m ++ END)) ++ replChainT items ps t)

/-- Characterization of `isPre`: it holds exactly when the second list
extends the first. -/
theorem isPre_iff (m : List Char) : ∀ s, isPre m s = true ↔ ∃ t, s = m ++ t := by
  induction m with
  | nil =>
      intro s
      constructor
      · intro _; exact ⟨s, rfl⟩
      · intro _; rfl
  | cons c m ih =>
      intro s
      cases s with
      | nil =>
          simp only [isPre]
          constructor
          · intro h; cases h
          · rintro ⟨t, ht⟩; cases ht
      | cons d s =>
          simp only [isPre, Bool.and_eq_true, beq_iff_eq]
          constructor
          · rintro ⟨rfl, h⟩
            rcases (ih s).1 h with ⟨t, rfl⟩
            exact ⟨t, rfl⟩
          · rintro ⟨t, ht⟩
            rw [List.cons_append] at ht
            cases ht
            exact ⟨rfl, (ih (m ++ t)).2 ⟨t, rfl⟩⟩

/-- A list is a leading segment of itself followed by anything. -/
theorem isPre_append_self (m t : List Char) : isPre m (m ++ t) = true :=
  (isPre_iff m (m ++ t)).2 ⟨t, rfl⟩

/-- Whether `m` leads a long list is unaffected by text appended after the
first `m.length` characters. -/
theorem isPre_long (m : List Char) :
    ∀ (s x : List Char), m.length ≤ s.length → isPre m (s ++ x) = isPre m s := by
  induction m with
  | nil => intro s x _; rfl
  | cons c m ih =>
      intro s x hlen
      cases s with
      | nil => simp at hlen
      | cons d s =>
          simp only [List.cons_append, isPre, List.append_eq]
          rw [ih s x (by simpa using hlen)]

/-- If `m` leads `u ++ d :: t` then either it already leads `u`, or the
character `d` occurs inside `m`. -/
theorem isPre_across {m : List Char} {d : Char} :
    ∀ {u t : List Char}, isPre m (u ++ d :: t) = true → isPre m u = true ∨ d ∈ m := by
  induction m with
  | nil => intro u t _; left; rfl
  | cons c m ih =>
      intro u t h
      cases u with
      | nil =>
          simp only [List.nil_append, isPre, Bool.and_eq_true, beq_iff_eq] at h
          right; rw [h.1]; exact List.mem_cons_self _ _
      | cons e u =>
          simp only [List.cons_append, isPre, Bool.and_eq_true, beq_iff_eq] at h ⊢
          rcases ih h.2 with h2 | h2
          · left; exact ⟨h.1, h2⟩
          · right; exact List.mem_cons_of_mem _ h2

/-- Splitting at the leftmost occurrence really decomposes the list. -/
theorem splitFirst_eq {m : List Char} :
    ∀ {s a b : List Char}, splitFirst m s = some (a, b) → s = a ++ (m ++ b) := by
  intro s
  induction s with
  | nil =>
      intro a b h
      simp only [splitFirst] at h
      by_cases hp : isPre m [] = true
      · rw [if_pos hp] at h
        rcases (isPre_iff m []).1 hp with ⟨t, ht⟩
        rcases List.append_eq_nil.1 ht.symm with ⟨rfl, rfl⟩
        cases h
        rfl
      · rw [if_neg hp] at h; cases h
  | cons c rest ih =>
      intro a b h
      simp only [splitFirst] at h
      by_cases hp : isPre m (c :: rest) = true
      · rw [if_pos hp] at h
        rcases (isPre_iff m (c :: rest)).1 hp with ⟨t, ht⟩
        rw [ht] at h ⊢
        rw [List.drop_left] at h
        cases h
        rfl
      · rw [if_neg hp] at h
        cases ho : splitFirst m rest with
        | none => rw [ho] at h; cases h
        | some p =>
            rw [ho] at h
            cases p with
            | mk a0 b0 =>
                simp only [Option.map_some'] at h
                cases h
                rw [List.cons_append]
                exact congrArg (c :: ·) (ih ho)

/-- The leftmost occurrence found at the very front. -/
theorem splitFirst_self_append (m t : List Char) :
    splitFirst m (m ++ t) = some ([], t) := by
  cases hmt : m ++ t with
  | nil =>
      rcases List.append_eq_nil.1 hmt with ⟨rfl, rfl⟩
      rfl
  | cons c rest =>
      rw [splitFirst, if_pos (hmt ▸ isPre_append_self m t), ← hmt, List.drop_left]

/-- Unfolding of `splitFirst` when the marker does not lead the list. -/
theorem splitFirst_cons_neg {m : List Char} {c : Char} {s : List Char}
    (h : isPre m (c :: s) = false) :
    splitFirst m (c :: s) = (splitFirst m s).map fun p => (c :: p.1, p.2) := by
  rw [splitFirst, if_neg (by simp [h])]

/-- The position of the first occurrence of `m` after a prefix `a` does not
depend on what the text after that occurrence is. -/
theorem splitFirst_shift {m : List Char} :
    ∀ {a x : List Char} (y : List Char),
      splitFirst m (a ++ (m ++ x)) = some (a, x) →
      splitFirst m (a ++ (m ++ y)) = some (a, y) := by
  intro a
  induction a with
  | nil => intro x y _; exact splitFirst_self_append m y
  | cons c a ih =>
      intro x y h
      rw [List.cons_append] at h ⊢
      by_cases hp : isPre m (c :: (a ++ (m ++ x))) = true
      · rw [splitFirst, if_pos hp] at h
        cases h
      · rw [splitFirst_cons_neg (Bool.not_eq_true _ ▸ hp)] at h
        cases ho : splitFirst m (a ++ (m ++ x)) with
        | none => rw [ho] at h; cases h
        | some p =>
            rw [ho] at h
            cases p with
            | mk a0 b0 =>
                simp only [Option.map_some'] at h
                have hinj := Option.some.inj h
                have ha0 : a0 = a := by
                  have h1 := congrArg Prod.fst hinj
                  simpa using h1
                have hb0 : b0 = x := congrArg Prod.snd hinj
                rw [ha0, hb0] at ho
                have hpy : isPre m (c :: (a ++ (m ++ y))) = false := by
                  have e1 : c :: (a ++ (m ++ x)) = ((c :: a) ++ m) ++ x := by
                    simp [List.append_assoc]
                  have e2 : c :: (a ++ (m ++ y)) = ((c :: a) ++ m) ++ y := by
                    simp [List.append_assoc]
                  have hlen : m.length ≤ ((c :: a) ++ m).length := by
                    simp [List.length_append]
                    omega
                  have hx := isPre_long m ((c :: a) ++ m) x hlen
                  have hy := isPre_long m ((c :: a) ++ m) y hlen
                  rw [e1, hx] at hp
                  rw [e2, hy]
                  exact Bool.not_eq_true _ ▸ hp
                rw [splitFirst_cons_neg hpy, ih y ho]
                rfl

/-- A leading occurrence gives a substring occurrence. -/
theorem containsSub_of_isPre {m s : List Char} (h : isPre m s = true) :
    containsSub m s = true := by
  cases s with
  | nil => simp [containsSub, splitFirst, h]
  | cons c rest => simp [containsSub, splitFirst, h]

/-- A substring of the tail is a substring of the whole list. -/
theorem containsSub_cons_of {m : List Char} {c : Char} {s : List Char}
    (h : containsSub m s = true) : containsSub m (c :: s) = true := by
  by_cases hp : isPre m (c :: s) = true
  · exact containsSub_of_isPre hp
  · rw [containsSub, splitFirst_cons_neg (Bool.not_eq_true _ ▸ hp)]
    rw [containsSub] at h
    cases ho : splitFirst m s with
    | none => rw [ho] at h; cases h
    | some p => rfl

/-- Substring occurrence is preserved by prepending text. -/
theorem containsSub_append_left {m v : List Char} (h : containsSub m v = true) :
    ∀ u, containsSub m (u ++ v) = true := by
  intro u
  induction u with
  | nil => simpa using h
  | cons c u ih => exact containsSub_cons_of ih

/-- A list that visibly contains `m` contains it as a substring. -/
theorem containsSub_parts (m u v : List Char) : containsSub m (u ++ (m ++ v)) = true :=
  containsSub_append_left (by simp [containsSub, splitFirst_self_append]) u

/-- If the head cannot start an occurrence, the tail decides containment. -/
theorem containsSub_cons_false {m : List Char} {c : Char} {s : List Char}
    (h : containsSub m (c :: s) = false) : containsSub m s = false := by
  by_cases hp : isPre m (c :: s) = true
  · rw [containsSub_of_isPre hp] at h; cases h
  · rw [containsSub, splitFirst_cons_neg (Bool.not_eq_true _ ▸ hp)] at h
    rw [containsSub]
    cases ho : splitFirst m s with
    | none => rfl
    | some p => rw [ho] at h; simp at h

/-- Without a match the substitution returns its input unchanged, whatever
the fuel. -/
theorem subRegionsF_no_region {s : List Char} (h : hasRegion s = false) (items : List TItem) :
    ∀ fuel, subRegionsF items fuel s = s := by
  intro fuel
  cases fuel with
  | zero => rfl
  | succ n =>
      cases ho : splitFirst START s with
      | none => simp only [subRegionsF, ho]
      | some p =>
          cases p with
          | mk a r =>
              have hcE : containsSub END r = false := by
                have hh := h
                rw [hasRegion, ho] at hh
                exact hh
              have hnone : splitFirst END r = none := by
                cases he : splitFirst END r with
                | none => rfl
                | some q => rw [containsSub, he] at hcE; simp at hcE
              simp only [subRegionsF, ho, hnone]

/-- Central lemma: on a document made of delimited regions whose fringes
cannot shift the leftmost matches, the substitution replaces every region
by the template expansion at its match and preserves all text outside the
regions. -/
theorem subRegionsF_chain (items : List TItem) :
    ∀ (ps : List (List Char × List Char)) (t : List Char) (fuel : Nat),
      (origChain ps t).length ≤ fuel →
      (∀ p ∈ ps, splitFirst START (p.1 ++ START) = some (p.1, []) ∧
                 splitFirst END (p.2 ++ END) = some (p.2, [])) →
      hasRegion t = false →
      subRegionsF items fuel (origChain ps t) = replChainT items ps t := by
  intro ps
  induction ps with
  | nil => intro t fuel _ _ ht; exact subRegionsF_no_region ht items fuel
  | cons hd ps ih =>
      intro t fuel hfuel hps ht
      cases hd with
      | mk a m =>
          have hstart0 := (hps (a, m) (List.mem_cons_self _ _)).1
          have hend0 := (hps (a, m) (List.mem_cons_self _ _)).2
          have hstart : splitFirst START (a ++ (START ++ (m ++ (END ++ origChain ps t)))) =
              some (a, m ++ (END ++ origChain ps t)) :=
            splitFirst_shift _ (by simpa using hstart0)
          have hend : splitFirst END (m ++ (END ++ origChain ps t)) =
              some (m, origChain ps t) :=
            splitFirst_shift _ (by simpa using hend0)
          have hlen : (origChain ps t).length < fuel := by
            have hx : (origChain ((a, m) :: ps) t).length =
                a.length + (START.length + (m.length + (END.length +
                  (origChain ps t).length))) := by
              simp [origChain, List.length_append]
            have hpos : 0 < START.length := by decide
            omega
          cases fuel with
          | zero => omega
          | succ n =>
              rw [origChain]
              simp only [subRegionsF, hstart, hend]
              rw [ih t n (by omega) (fun p hp => hps p (List.mem_cons_of_mem _ hp)) ht]
              simp [replChainT, List.append_assoc]

/-- The substitution itself (with its real fuel) on a chain document. -/
theorem subRegions_chain (items : List TItem) (ps : List (List Char × List Char))
    (t : List Char)
    (hps : ∀ p ∈ ps, splitFirst START (p.1 ++ START) = some (p.1, []) ∧
                     splitFirst END (p.2 ++ END) = some (p.2, []))
    (ht : hasRegion t = false) :
    subRegions items (origChain ps t) = replChainT items ps t :=
  subRegionsF_chain items ps t (origChain ps t).length (Nat.le_refl _) hps ht

/-- Expanding the template of a backslash-free replacement is the
replacement itself, whatever the match. -/
theorem expandTemplate_lit (matched : List Char) :
    ∀ repl : List Char, expandTemplate (repl.map TItem.lit) matched = repl := by
  intro repl
  induction repl with
  | nil => rfl
  | cons c cs ih => rw [List.map_cons, expandTemplate, ih]

/-- On a purely literal template the expansion-aware chain collapses to
the constant-replacement chain. -/
theorem replChainT_lit (repl : List Char) :
    ∀ (ps : List (List Char × List Char)) (t : List Char),
      replChainT (repl.map TItem.lit) ps t = replChain repl ps t := by
  intro ps
  induction ps with
  | nil => intro t; rfl
  | cons hd ps ih =>
      intro t
      cases hd with
      | mk a m => rw [replChainT, replChain, expandTemplate_lit, ih]

/-- A template with no backslash parses to itself as literals, whatever
the fuel beyond its length. -/
theorem parse_templateF_no_backslash :
    ∀ (fuel : Nat) (s : List Char), ('\\' : Char) ∉ s → s.length < fuel →
      parse_templateF fuel s = Except.ok (s.map TItem.lit) := by
  intro fuel
  induction fuel with
  | zero => intro s _ h; exact absurd h (Nat.not_lt_zero _)
  | succ f ih =>
      intro s hn hlen
      cases s with
      | nil => rfl
      | cons c rest =>
          have hc : ¬ c = '\\' := fun h => hn (h ▸ List.mem_cons_self _ _)
          have hrest : ('\\' : Char) ∉ rest := fun h => hn (List.mem_cons_of_mem _ h)
          have hlen2 : rest.length < f := by
            rw [List.length_cons] at hlen
            omega
          simp only [parse_templateF, if_neg hc]
          rw [ih rest hrest hlen2]
          rfl

/-- The template parser on a backslash-free replacement string. -/
theorem parse_template_no_backslash {s : List Char} (h : ('\\' : Char) ∉ s) :
    parse_template s = Except.ok (s.map TItem.lit) :=
  parse_templateF_no_backslash (s.length + 1) s h (Nat.lt_succ_self _)

/-- The replacement string built around a backslash-free content is
backslash-free: the two markers and the newlines contain no backslash. -/
theorem no_backslash_replacementFor {C : List Char} (h : ('\\' : Char) ∉ C) :
    ('\\' : Char) ∉ replacementFor C := by
  intro hmem
  rw [replacementFor] at hmem
  rcases List.mem_append.1 hmem with h1 | h1
  · exact absurd h1 (by decide)
  · rcases List.mem_cons.1 h1 with h2 | h2
    · exact absurd h2 (by decide)
    · rcases List.mem_append.1 h2 with h3 | h3
      · exact h h3
      · rcases List.mem_cons.1 h3 with h4 | h4
        · exact absurd h4 (by decide)
        · exact absurd h4 (by decide)

/-- On a document with at least one region and a backslash-free content
the splice takes the regex branch, the template parses to itself, and
every region is rewritten to the markers wrapping the content. -/
theorem ensure_chain (repoFull C t a m : List Char) (ps : List (List Char × List Char))
    (hC : ('\\' : Char) ∉ C)
    (hps : ∀ p ∈ ((a, m) :: ps),
        splitFirst START (p.1 ++ START) = some (p.1, []) ∧
        splitFirst END (p.2 ++ END) = some (p.2, []))
    (ht : hasRegion t = false) :
    ensure_readme_section repoFull C (some (origChain ((a, m) :: ps) t)) =
      Except.ok
        ⟨replChain (replacementFor C) ((a, m) :: ps) t,
         replChain (replacementFor C) ((a, m) :: ps) t != origChain ((a, m) :: ps) t⟩ := by
  have hS : containsSub START (origChain ((a, m) :: ps) t) = true := by
    rw [origChain]
    exact containsSub_parts START a _
  have hE : containsSub END (origChain ((a, m) :: ps) t) = true := by
    rw [origChain]
    apply containsSub_append_left _ a
    apply containsSub_append_left _ START
    apply containsSub_append_left _ m
    exact containsSub_parts END [] _
  have hparse : parse_template (replacementFor C) =
      Except.ok ((replacementFor C).map TItem.lit) :=
    parse_template_no_backslash (no_backslash_replacementFor hC)
  have hsub : subRegions ((replacementFor C).map TItem.lit) (origChain ((a, m) :: ps) t)
      = replChain (replacementFor C) ((a, m) :: ps) t := by
    rw [subRegions_chain ((replacementFor C).map TItem.lit) ((a, m) :: ps) t hps ht]
    exact replChainT_lit (replacementFor C) ((a, m) :: ps) t
  simp only [ensure_readme_section, hS, hE, Bool.and_self, if_true, hparse, hsub]

/-- With content free of the end marker, the leftmost END occurrence in the
freshly written region body sits exactly at the closing marker: the marker
contains no newline, so no occurrence can straddle the newline separator. -/
theorem splitFirst_end_content {C : List Char} (hC : containsSub END C = false) :
    ∀ w, splitFirst END (C ++ ('\n' :: (END ++ w))) = some (C ++ ['\n'], w) := by
  induction C with
  | nil =>
      intro w
      have hp : isPre END ('\n' :: (END ++ w)) = false := by
        cases hpre : isPre END ('\n' :: (END ++ w)) with
        | false => rfl
        | true =>
            rcases isPre_across (u := []) hpre with h1 | h1
            · have : END = [] := by
                cases hE : END with
                | nil => rfl
                | cons e es => rw [hE] at h1; cases h1
              simp [END] at this
            · have hnl : ('\n' : Char) ∉ END := by decide
              exact absurd h1 hnl
      rw [List.nil_append, splitFirst_cons_neg hp]
      rw [show END ++ w = END ++ w from rfl, splitFirst_self_append]
      rfl
  | cons c C ih =>
      intro w
      have hC2 : containsSub END C = false := containsSub_cons_false hC
      have hp : isPre END ((c :: C) ++ '\n' :: (END ++ w)) = false := by
        cases hpre : isPre END ((c :: C) ++ '\n' :: (END ++ w)) with
        | false => rfl
        | true =>
            rcases isPre_across hpre with h1 | h1
            · rw [containsSub_of_isPre h1] at hC; cases hC
            · have hnl : ('\n' : Char) ∉ END := by decide
              exact absurd h1 hnl
      rw [List.cons_append] at hp
      rw [List.cons_append, splitFirst_cons_neg hp, ih hC2 w]
      rfl

/-- Appending onto text whose strip is empty strips down to the head part. -/
theorem rstrip_append_nil {v : List Char} (hv : rstrip v = []) :
    ∀ u, rstrip (u ++ v) = rstrip u := by
  intro u
  induction u with
  | nil => simpa using hv
  | cons c u ih => rw [List.cons_append, rstrip, ih, rstrip]

/-- Appending onto text with visible content strips only inside the tail. -/
theorem rstrip_append_keep {v : List Char} (hv : rstrip v ≠ []) :
    ∀ u, rstrip (u ++ v) = u ++ rstrip v := by
  intro u
  induction u with
  | nil => rfl
  | cons c u ih =>
      rw [List.cons_append, rstrip, ih]
      cases hu : u ++ rstrip v with
      | nil =>
          rcases List.append_eq_nil.1 hu with ⟨rfl, h2⟩
          exact absurd h2 hv
      | cons d r => rw [List.cons_append, hu]

/-- A marker that survives stripping on its own also survives inside a
document: the text before it and the marker itself are untouched. -/
theorem rstrip_occurrence {m : List Char} (hm : rstrip m = m) (hne : m ≠ []) :
    ∀ u q, ∃ r, rstrip (u ++ (m ++ q)) = u ++ (m ++ r) := by
  intro u q
  by_cases hq : rstrip q = []
  · have h1 : rstrip (m ++ q) = m := by rw [rstrip_append_nil hq m, hm]
    have h2 : rstrip (m ++ q) ≠ [] := by rw [h1]; exact hne
    refine ⟨[], ?_⟩
    rw [rstrip_append_keep h2 u, h1, List.append_nil]
  · have h1 : rstrip (m ++ q) = m ++ rstrip q := rstrip_append_keep hq m
    have h2 : rstrip (m ++ q) ≠ [] := by
      rw [h1]
      intro hx
      exact hq (List.append_eq_nil.1 hx).2
    refine ⟨rstrip q, ?_⟩
    rw [rstrip_append_keep h2 u, h1]

/-- The end marker begins with a character other than a newline, so it
never leads a newline-headed text. -/
theorem isPre_END_newline (z : List Char) : isPre END ('\n' :: z) = false := by
  cases hpre : isPre END ('\n' :: z) with
  | false => rfl
  | true =>
      exfalso
      rcases isPre_across (m := END) (d := '\n') (u := []) (t := z)
          (by simpa using hpre) with h1 | h1
      · cases hE : END with
        | nil => exact absurd hE (by decide)
        | cons e es => rw [hE] at h1; cases h1
      · exact absurd h1 (by decide)

/-- Shared helper: splice into a document holding exactly one delimited
region, for a backslash-free content. -/
theorem splice_single (repoFull C a m t : List Char)
    (hC : ('\\' : Char) ∉ C)
    (hs : splitFirst START (a ++ START) = some (a, []))
    (he : splitFirst END (m ++ END) = some (m, []))
    (ht : hasRegion t = false) :
    ensure_readme_section repoFull C (some (a ++ (START ++ (m ++ (END ++ t))))) =
      Except.ok
        ⟨a ++ (replacementFor C ++ t),
         (a ++ (replacementFor C ++ t)) != (a ++ (START ++ (m ++ (END ++ t))))⟩ := by
  have hcons : ∀ p ∈ [(a, m)],
      splitFirst START (p.1 ++ START) = some (p.1, []) ∧
      splitFirst END (p.2 ++ END) = some (p.2, []) := by
    intro p hp
    rw [List.mem_singleton] at hp
    subst hp
    exact ⟨hs, he⟩
  exact ensure_chain repoFull C t a m [] hC hcons ht

/-- C1 counterexample: report content holding a backslash group reference
makes re.sub raise re.error while parsing its replacement template, so on
a document with exactly one delimited region the splice raises instead of
producing the document with the markers wrapping the content. -/
theorem C1_counterexample_backslash :
    ensure_readme_section "o/r".data "\\1".data
        (some "# X\n\n<!-- DAILY-SECTION:START -->\nOLD\n<!-- DAILY-SECTION:END -->\n".data)
      = Except.error () := rfl

/-- C1 (amended): for every report content free of backslashes and every
document holding exactly one delimited region, the splice replaces only
the bytes from the start marker through the end marker with the markers
wrapping the new content, and every byte of the document outside that
region is unchanged. -/
theorem C1_splice_replaces_single_region (repoFull C a m t : List Char)
    (hC : ('\\' : Char) ∉ C)
    (hs : splitFirst START (a ++ START) = some (a, []))
    (he : splitFirst END (m ++ END) = some (m, []))
    (ht : hasRegion t = false) :
    spliceResultText
        (ensure_readme_section repoFull C (some (a ++ (START ++ (m ++ (END ++ t))))))
      = some (a ++ (replacementFor C ++ t)) := by
  rw [splice_single repoFull C a m t hC hs he ht]
  rfl

/-- Witness for C1 on the documentation example. -/
theorem C1_splice_replaces_single_region_witness :
    (('\\' : Char) ∉ "NEW".data ∧
     splitFirst START ("# X\n\n".data ++ START) = some ("# X\n\n".data, []) ∧
     splitFirst END ("\nOLD\n".data ++ END) = some ("\nOLD\n".data, []) ∧
     hasRegion "\n".data = false) ∧
    spliceResultText
        (ensure_readme_section "owner/name".data "NEW".data
          (some ("# X\n\n".data ++ (START ++ ("\nOLD\n".data ++ (END ++ "\n".data))))))
      = some ("# X\n\n".data ++ (replacementFor "NEW".data ++ "\n".data)) :=
  ⟨by decide,
   C1_splice_replaces_single_region "owner/name".data "NEW".data
     "# X\n\n".data "\nOLD\n".data "\n".data (by decide) (by decide) (by decide) (by decide)⟩

/-- C3 counterexample: when the report content is itself the end marker,
the second invocation with identical content writes the file again (each
run keeps growing the document), refuting the claim for arbitrary content. -/
theorem C3_counterexample_marker_content :
    spliceResultWrote (spliceTwice "o/r".data END
        (some "# X\n\n<!-- DAILY-SECTION:START -->\nOLD\n<!-- DAILY-SECTION:END -->\n".data))
      = some true := by decide

/-- C3 (amended): provided the content contains no backslash and does not
contain the end marker, splicing the identical content twice in a row
performs no write on the second invocation. -/
theorem C3_splice_idempotent_no_marker (repoFull C a m t : List Char)
    (hC : ('\\' : Char) ∉ C)
    (hs : splitFirst START (a ++ START) = some (a, []))
    (he : splitFirst END (m ++ END) = some (m, []))
    (ht : hasRegion t = false)
    (hCe : containsSub END C = false) :
    spliceResultWrote (spliceTwice repoFull C (some (a ++ (START ++ (m ++ (END ++ t))))))
      = some false := by
  have h1 := splice_single repoFull C a m t hC hs he ht
  have hend2 : splitFirst END (('\n' :: (C ++ ['\n'])) ++ END) =
      some ('\n' :: (C ++ ['\n']), []) := by
    have h0 := splitFirst_end_content hCe []
    have hp := isPre_END_newline (C ++ ('\n' :: (END ++ [])))
    have hsh : ('\n' :: (C ++ ['\n'])) ++ END = '\n' :: (C ++ ('\n' :: (END ++ []))) := by
      simp [List.append_assoc]
    rw [hsh, splitFirst_cons_neg hp, h0]
    rfl
  have hcons : ∀ p ∈ [(a, '\n' :: (C ++ ['\n']))],
      splitFirst START (p.1 ++ START) = some (p.1, []) ∧
      splitFirst END (p.2 ++ END) = some (p.2, []) := by
    intro p hp
    rw [List.mem_singleton] at hp
    subst hp
    exact ⟨hs, hend2⟩
  have hrw : a ++ (replacementFor C ++ t) = origChain [(a, '\n' :: (C ++ ['\n']))] t := by
    simp [origChain, replacementFor, List.append_assoc]
  have h2 := ensure_chain repoFull C t a ('\n' :: (C ++ ['\n'])) [] hC hcons ht
  have hback : replChain (replacementFor C) [(a, '\n' :: (C ++ ['\n']))] t =
      origChain [(a, '\n' :: (C ++ ['\n']))] t := by
    rw [← hrw]
    simp [replChain]
  simp only [spliceTwice, h1]
  rw [hrw, h2, hback]
  simp [spliceResultWrote]

/-- Witness for C3 (amended) on the documentation example. -/
theorem C3_splice_idempotent_no_marker_witness :
    (('\\' : Char) ∉ "NEW".data ∧
     splitFirst START ("# X\n\n".data ++ START) = some ("# X\n\n".data, []) ∧
     splitFirst END ("\nOLD\n".data ++ END) = some ("\nOLD\n".data, []) ∧
     hasRegion "\n".data = false ∧
     containsSub END "NEW".data = false) ∧
    spliceResultWrote (spliceTwice "owner/name".data "NEW".data
        (some ("# X\n\n".data ++ (START ++ ("\nOLD\n".data ++ (END ++ "\n".data))))))
      = some false :=
  ⟨by decide,
   C3_splice_idempotent_no_marker "owner/name".data "NEW".data
     "# X\n\n".data "\nOLD\n".data "\n".data
     (by decide) (by decide) (by decide) (by decide) (by decide)⟩

/-- C10 counterexample: on a document holding two delimited regions, a
content with a backslash group reference makes re.sub raise re.error, so
no span at all is replaced by the markers wrapping the new content. -/
theorem C10_counterexample_backslash :
    ensure_readme_section "o/r".data "\\1".data
        (some (origChain [("A ".data, "one".data), (" B ".data, "two".data)] " tail".data))
      = Except.error () := rfl

/-- C10 (amended): for every backslash-free content, on a document holding
more than one delimited region the splice replaces every region with the
markers wrapping the new content, not only the first one, and keeps all
text between and around the regions. -/
theorem C10_splice_replaces_every_region (repoFull C t a1 m1 a2 m2 : List Char)
    (ps : List (List Char × List Char))
    (hC : ('\\' : Char) ∉ C)
    (hps : ∀ p ∈ ((a1, m1) :: (a2, m2) :: ps),
        splitFirst START (p.1 ++ START) = some (p.1, []) ∧
        splitFirst END (p.2 ++ END) = some (p.2, []))
    (ht : hasRegion t = false) :
    spliceResultText
        (ensure_readme_section repoFull C
          (some (origChain ((a1, m1) :: (a2, m2) :: ps) t)))
      = some (replChain (replacementFor C) ((a1, m1) :: (a2, m2) :: ps) t) := by
  rw [ensure_chain repoFull C t a1 m1 ((a2, m2) :: ps) hC hps ht]
  rfl

/-- Witness for C10 on a two-region document. -/
theorem C10_splice_replaces_every_region_witness :
    (('\\' : Char) ∉ "NEW".data ∧
     (∀ p ∈ [(("# X\n\n".data : List Char), ("\nOLD\n".data : List Char)),
             ("mid".data, "old2".data)],
        splitFirst START (p.1 ++ START) = some (p.1, []) ∧
        splitFirst END (p.2 ++ END) = some (p.2, [])) ∧
     hasRegion "tail".data = false) ∧
    spliceResultText
        (ensure_readme_section "owner/name".data "NEW".data
          (some (origChain [("# X\n\n".data, "\nOLD\n".data), ("mid".data, "old2".data)]
            "tail".data)))
      = some (replChain (replacementFor "NEW".data)
          [("# X\n\n".data, "\nOLD\n".data), ("mid".data, "old2".data)] "tail".data) :=
  ⟨by decide,
   C10_splice_replaces_every_region "owner/name".data "NEW".data "tail".data
     "# X\n\n".data "\nOLD\n".data "mid".data "old2".data []
     (by decide) (by decide) (by decide)⟩

/-- C9: when exactly one of the two markers occurs in the document, the
splice takes the append path: the document is stripped of trailing
whitespace and a fresh delimited region is appended (no template parse,
no raise), while the orphan marker stays in place, so the result holds
two occurrences of that marker. -/
theorem C9_splice_orphan_appends (repoFull C txt : List Char)
    (h : (containsSub START txt = true ∧ containsSub END txt = false) ∨
         (containsSub START txt = false ∧ containsSub END txt = true)) :
    ensure_readme_section repoFull C (some txt) =
      Except.ok
        ⟨rstrip txt ++ ('\n' :: '\n' :: (replacementFor C ++ ['\n'])),
         (rstrip txt ++ ('\n' :: '\n' :: (replacementFor C ++ ['\n']))) != txt⟩ ∧
    ((containsSub START txt = true →
        ∃ u v w, rstrip txt ++ ('\n' :: '\n' :: (replacementFor C ++ ['\n']))
          = u ++ (START ++ (v ++ (START ++ w)))) ∧
     (containsSub END txt = true →
        ∃ u v w, rstrip txt ++ ('\n' :: '\n' :: (replacementFor C ++ ['\n']))
          = u ++ (END ++ (v ++ (END ++ w))))) := by
  have hcond : (containsSub START txt && containsSub END txt) = false := by
    rcases h with ⟨h1, h2⟩ | ⟨h1, h2⟩ <;> simp [h1, h2]
  refine ⟨?_, ?_, ?_⟩
  · simp [ensure_readme_section, hcond]
  · intro hS
    cases ho : splitFirst START txt with
    | none => rw [containsSub, ho] at hS; cases hS
    | some p =>
        cases p with
        | mk pfx q =>
            have hdecomp := splitFirst_eq ho
            rcases rstrip_occurrence (m := START) (by decide) (by decide) pfx q with ⟨r, hr⟩
            refine ⟨pfx, r ++ ['\n', '\n'], ('\n' :: (C ++ ('\n' :: END))) ++ ['\n'], ?_⟩
            rw [hdecomp, hr]
            simp [replacementFor, List.append_assoc]
  · intro hE
    cases ho : splitFirst END txt with
    | none => rw [containsSub, ho] at hE; cases hE
    | some p =>
        cases p with
        | mk pfx q =>
            have hdecomp := splitFirst_eq ho
            rcases rstrip_occurrence (m := END) (by decide) (by decide) pfx q with ⟨r, hr⟩
            refine ⟨pfx, r ++ ('\n' :: '\n' :: (START ++ ('\n' :: (C ++ ['\n'])))), ['\n'], ?_⟩
            rw [hdecomp, hr]
            simp [replacementFor, List.append_assoc]

/-- Witness for C9 on a document holding only the start marker. -/
theorem C9_splice_orphan_appends_witness :
    ((containsSub START "intro <!-- DAILY-SECTION:START --> body\n\n".data = true ∧
      containsSub END "intro <!-- DAILY-SECTION:START --> body\n\n".data = false) ∨
     (containsSub START "intro <!-- DAILY-SECTION:START --> body\n\n".data = false ∧
      containsSub END "intro <!-- DAILY-SECTION:START --> body\n\n".data = true)) ∧
    ensure_readme_section "owner/name".data "NEW".data
        (some "intro <!-- DAILY-SECTION:START --> body\n\n".data) =
      Except.ok
        ⟨rstrip "intro <!-- DAILY-SECTION:START --> body\n\n".data ++
           ('\n' :: '\n' :: (replacementFor "NEW".data ++ ['\n'])),
         (rstrip "intro <!-- DAILY-SECTION:START --> body\n\n".data ++
           ('\n' :: '\n' :: (replacementFor "NEW".data ++ ['\n']))) !=
             "intro <!-- DAILY-SECTION:START --> body\n\n".data⟩ :=
  ⟨by decide,
   (C9_splice_orphan_appends "owner/name".data "NEW".data
     "intro <!-- DAILY-SECTION:START --> body\n\n".data (by decide)).1⟩

/-- Zero-padded decimal rendering of a number, as produced by the strftime
format directives used in the scripts. -/
def padZ (w n : Nat) : List Char :=
  List.replicate (w - (Nat.toDigits 10 n).length) '0' ++ Nat.toDigits 10 n

/-- A wall-clock instant at second resolution in UTC, the information that
strftime("%Y-%m-%d %H:%M:%S %Z") consumes. -/
structure Instant where
  year : Nat
  month : Nat
  day : Nat
  hour : Nat
  minute : Nat
  second : Nat

/-- Model of datetime.strftime("%Y-%m-%d %H:%M:%S %Z") under timezone.utc
(heartbeat.py, line 7). -/
def fmtInstant (t : Instant) : List Char :=
  padZ 4 t.year ++ ('-' :: padZ 2 t.month) ++ ('-' :: padZ 2 t.day) ++
  (' ' :: padZ 2 t.hour) ++ (':' :: padZ 2 t.minute) ++ (':' :: padZ 2 t.second) ++
  " UTC".data

/-- Model of the rendered heartbeat document (heartbeat.py, lines 8-12 and
16): the join of the three template lines with the timestamp embedded. -/
def heartbeat_content (now : List Char) : List Char :=
  "# Daily Heartbeat\n".data ++
  "This file is automatically updated once per day by a workflow.\n\n".data ++
  ("Last update: **".data ++ (now ++ "**\n".data))

/-- Outcome of one heartbeat run: resulting file text, whether a write
happened, and the printed status line. -/
structure HeartbeatResult where
  text : List Char
  wrote : Bool
  message : List Char

/-- Status line printed on a write. -/
def updatedMsg : List Char := "Heartbeat updated.".data

/-- Status line printed on a no-op. -/
def noChangeMsg : List Char := "No change; heartbeat already up to date.".data

/-- Model of the heartbeat script body (heartbeat.py, lines 14-21): a
missing file reads as the empty string, the file is rewritten only when the
rendered content differs from the prior content, and the matching status
line is printed. -/
def heartbeat_run (now : List Char) (disk : Option (List Char)) : HeartbeatResult :=
  let old := disk.getD []
  let new := heartbeat_content now
  if old ≠ new then ⟨new, true, updatedMsg⟩ else ⟨old, false, noChangeMsg⟩

/-- The resulting heartbeat file always holds the freshly rendered content
(on a no-op it was already equal to it). -/
theorem heartbeat_text (now : List Char) (disk : Option (List Char)) :
    (heartbeat_run now disk).text = heartbeat_content now := by
  rw [heartbeat_run]
  split
  · rfl
  · next hne => rw [not_ne_iff] at hne; exact hne

/-- C4: the heartbeat updater rewrites the file exactly when the rendered
three-line content differs from the prior on-disk content (a missing file
counting as empty), leaves the rendered content on disk, and reports the
action taken through its status message. -/
theorem C4_heartbeat_write_iff (now : List Char) (disk : Option (List Char)) :
    ((heartbeat_run now disk).wrote = true ↔ heartbeat_content now ≠ disk.getD []) ∧
    (heartbeat_run now disk).message =
      (if heartbeat_content now = disk.getD [] then noChangeMsg else updatedMsg) ∧
    (heartbeat_run now disk).text = heartbeat_content now := by
  refine ⟨?_, ?_, heartbeat_text now disk⟩ <;> rw [heartbeat_run] <;> split
  · next hne => simpa using (Ne.symm hne)
  · next hne =>
      rw [not_ne_iff] at hne
      simp [hne]
  · next hne => rw [if_neg (by exact fun hx => hne hx.symm)]
  · next hne =>
      rw [not_ne_iff] at hne
      rw [if_pos hne.symm]

/-- C5 counterexample: two consecutive runs whose instants agree at minute
resolution but differ in the second still rewrite the file on the second
run, because the rendered timestamp carries seconds. -/
theorem C5_counterexample_same_minute :
    ((Instant.mk 2026 10 12 8 0 0).year = (Instant.mk 2026 10 12 8 0 1).year ∧
     (Instant.mk 2026 10 12 8 0 0).month = (Instant.mk 2026 10 12 8 0 1).month ∧
     (Instant.mk 2026 10 12 8 0 0).day = (Instant.mk 2026 10 12 8 0 1).day ∧
     (Instant.mk 2026 10 12 8 0 0).hour = (Instant.mk 2026 10 12 8 0 1).hour ∧
     (Instant.mk 2026 10 12 8 0 0).minute = (Instant.mk 2026 10 12 8 0 1).minute) ∧
    (heartbeat_run (fmtInstant (Instant.mk 2026 10 12 8 0 1))
        (some ((heartbeat_run (fmtInstant (Instant.mk 2026 10 12 8 0 0)) none).text))).wrote
      = true := by
  constructor
  · exact ⟨rfl, rfl, rfl, rfl, rfl⟩
  · decide

/-- C5 (amended): the rendered heartbeat content is a function of the
timestamp at second resolution, so two consecutive runs over the same
second-resolution instant make the second run a no-op. -/
theorem C5_heartbeat_same_second_noop (t : Instant) (disk : Option (List Char)) :
    (heartbeat_run (fmtInstant t) (some ((heartbeat_run (fmtInstant t) disk).text))).wrote
      = false := by
  rw [heartbeat_text, heartbeat_run]
  rw [if_neg (by simp)]

/-- Minimal shape of a decoded languages response: a JSON object carrying
per-language byte counts in field order, or any other JSON value (list,
string, number, null), which `langs.items()` cannot consume. -/
inductive JVal where
  | obj : List (List Char × Nat) → JVal
  | other : JVal
deriving DecidableEq

/-- One repository as consumed by top_languages: its fork flag and the
outcome of the follow-up fetch of its languages_url, either a raised
exception or the decoded JSON payload. -/
structure Repo where
  fork : Bool
  languages : Except Unit JVal

/-- The caught fallback of daily_report.py, lines 37-40: a raised language
fetch contributes the empty dict, a successful fetch hands its payload on
unchecked. -/
def langsOf (r : Repo) : JVal :=
  match r.languages with
  | .error _ => JVal.obj []
  | .ok v => v

/-- Model of `langs.items()` (daily_report.py, line 41), which sits
outside the try block: on a non-object payload it raises, uncaught. -/
def itemsOf : JVal → Except Unit (List (List Char × Nat))
  | JVal.obj l => Except.ok l
  | JVal.other => Except.error ()

/-- Model of `agg[lang] = agg.get(lang, 0) + bytes_` on a Python dict
kept as an association list in insertion order. -/
def dictAdd (agg : List (List Char × Nat)) (k : List Char) (v : Nat) :
    List (List Char × Nat) :=
  match agg with
  | [] => [(k, v)]
  | (k0, v0) :: rest => if k0 = k then (k0, v0 + v) :: rest else (k0, v0) :: dictAdd rest k v

/-- Model of the aggregation loop of top_languages (daily_report.py,
lines 33-42) with the dict threaded as accumulator: forks are skipped
before any fetch, every language of every remaining repository adds its
byte count, and a raise of langs.items() aborts the whole producer. -/
def buildAgg : List Repo → List (List Char × Nat) → Except Unit (List (List Char × Nat))
  | [], agg => Except.ok agg
  | r :: rs, agg =>
    if r.fork then buildAgg rs agg
    else
      match itemsOf (langsOf r) with
      | Except.error e => Except.error e
      | Except.ok l => buildAgg rs (l.foldl (fun a p => dictAdd a p.1 p.2) agg)

/-- Stable insertion of one entry into a list sorted by byte count in
descending order: the entry passes the strictly larger counts and lands
before every entry with an equal or smaller count, so an earlier entry
precedes later entries with the same count, matching the stable Python
sorted(key, reverse=True). -/
def insDesc (x : List Char × Nat) : List (List Char × Nat) → List (List Char × Nat)
  | [] => [x]
  | y :: ys => if x.2 < y.2 then y :: insDesc x ys else x :: y :: ys

/-- Stable descending sort by byte count, the model of
`sorted(agg.items(), key=lambda kv: kv[1], reverse=True)`. -/
def sortDesc : List (List Char × Nat) → List (List Char × Nat)
  | [] => []
  | x :: xs => insDesc x (sortDesc xs)

/-- Model of the Python idiom `n or 1` on a number: 0 is falsy and is
replaced by the neutral denominator 1. -/
def pyOr1 (n : Nat) : Nat := if n = 0 then 1 else n

/-- Rendered language block, keeping the two shapes of the produced
markdown: the no-data block, or the header plus one entry per language.
The numeric part of each entry carries the exact rational
`v * 100 / total` to which Python applies round(..., 1); the decimal float
formatting is abstracted away. -/
inductive LangBlock where
  | noData : LangBlock
  | approx : List (List Char × ℚ) → LangBlock
deriving DecidableEq

/-- Model of top_languages(limit=6) (daily_report.py, lines 30-48) as a
function of the upstream responses.  The argument carries the outcome of
the initial `fetch_json` of the repository listing (line 32), which the
function body does not guard: a raised exception there leaves the function
as an error.  Per-repository language fetches ride inside each `Repo`. -/
def top_languages (reposResp : Except Unit (List Repo)) : Except Unit LangBlock :=
  match reposResp with
  | .error e => .error e
  | .ok repos =>
      match buildAgg repos [] with
      | Except.error e => Except.error e
      | Except.ok agg =>
          if agg = [] then .ok .noData
          else
            let top := (sortDesc agg).take 6
            let total := pyOr1 (top.map (fun p => p.2)).sum
            .ok (.approx (top.map (fun p => (p.1, (p.2 : ℚ) * 100 / (total : ℚ)))))

/-- Observer: did the producer return the no-data block. -/
def isNoData : Except Unit LangBlock → Bool
  | .ok .noData => true
  | _ => false

/-- Total byte count of an aggregate. -/
def aggTotal (agg : List (List Char × Nat)) : Nat := (agg.map (fun p => p.2)).sum

/-- C8 counterexample: an aggregate holding one language with byte count 0
has total byte count 0, yet the producer returns a percentage block, not
the no-data block (the no-data test checks emptiness of the dict, not the
total). -/
theorem C8_counterexample_zero_bytes :
    buildAgg [Repo.mk false (Except.ok (JVal.obj [(['X'], 0)]))] [] =
      Except.ok [(['X'], 0)] ∧
    aggTotal [(['X'], 0)] = 0 ∧
    isNoData (top_languages
        (Except.ok [Repo.mk false (Except.ok (JVal.obj [(['X'], 0)]))])) = false := by
  refine ⟨rfl, rfl, rfl⟩

/-- C8 (amended): the producer returns the no-data block exactly for an
empty aggregate, and the percentage denominator pyOr1 of the top-N subtotal
is never zero, so the percentage computation is total for all inputs. -/
theorem C8_language_no_data_guard :
    (∀ repos : List Repo, buildAgg repos [] = Except.ok [] →
        top_languages (Except.ok repos) = Except.ok LangBlock.noData) ∧
    (∀ n : Nat, pyOr1 n ≠ 0) := by
  constructor
  · intro repos hagg
    simp only [top_languages, hagg]
    rfl
  · intro n
    rw [pyOr1]
    split
    · exact Nat.one_ne_zero
    · next hn => exact hn

/-- Witness for C8 (amended). -/
theorem C8_language_no_data_guard_witness :
    buildAgg [] [] = Except.ok [] ∧
    top_languages (Except.ok []) = Except.ok LangBlock.noData ∧
    pyOr1 0 ≠ 0 :=
  ⟨rfl, C8_language_no_data_guard.1 [] rfl, C8_language_no_data_guard.2 0⟩

/-- One feed event as consumed by recent_activity: its creation time is
kept as a point on an integer time axis (seconds), its type string and
repository name as text.  ISO-8601 parsing is abstracted into the numeric
time value; datetime comparison is the numeric order. -/
structure Event where
  created : Int
  kind : List Char
  repo : List Char
deriving DecidableEq

/-- Model of the selection loop of recent_activity (daily_report.py,
lines 70-79): skip events older than the cutoff, keep the rest in feed
order, stop as soon as the kept list reaches the limit. -/
def activityLoop (cutoff : Int) : Nat → List Event → List Event
  | _, [] => []
  | limit, e :: es =>
    if e.created < cutoff then activityLoop cutoff limit es
    else if limit ≤ 1 then [e]
    else e :: activityLoop cutoff (limit - 1) es

/-- Model of the items kept by recent_activity(limit=5, days=7)
(daily_report.py, lines 66-80): the cutoff is the current instant minus
seven days of seconds. -/
def recent_activity_items (now : Int) (events : List Event) : List Event :=
  activityLoop (now - 7 * 86400) 5 events

/-- The selection loop is filtering by the time window followed by a prefix
take; no field other than the creation time is consulted. -/
theorem activityLoop_eq (cutoff : Int) :
    ∀ (es : List Event) (limit : Nat), 1 ≤ limit →
      activityLoop cutoff limit es =
        (es.filter (fun e => !decide (e.created < cutoff))).take limit := by
  intro es
  induction es with
  | nil => intro limit _; simp [activityLoop]
  | cons e es ih =>
      intro limit hlim
      rw [activityLoop]
      by_cases hc : e.created < cutoff
      · rw [if_pos hc, List.filter_cons_of_neg (by simp [hc]), ih limit hlim]
      · rw [if_neg hc, List.filter_cons_of_pos (by simp [hc])]
        by_cases h1 : limit ≤ 1
        · have : limit = 1 := Nat.le_antisymm h1 hlim
          subst this
          rw [if_pos (Nat.le_refl 1)]
          simp
        · rw [if_neg h1, List.take_cons (by omega), ih (limit - 1) (by omega)]

/-- C6 counterexample: an in-window event whose type is the empty string is
kept, so no allow-list of event kinds filters the feed; the window test is
the only filter applied. -/
theorem C6_counterexample_no_kind_filter :
    recent_activity_items 0 [Event.mk 0 [] "r".data] = [Event.mk 0 [] "r".data] := by
  decide

/-- C6 (amended): the producer keeps exactly the events of the trailing
seven-day window measured against the current instant, regardless of event
kind (there is no allow-list), preserves feed order, and caps the result at
five items. -/
theorem C6_recent_activity_window (now : Int) (events : List Event) :
    recent_activity_items now events =
      (events.filter (fun e => !decide (e.created < now - 7 * 86400))).take 5 :=
  activityLoop_eq (now - 7 * 86400) events 5 (by omega)

/-- One rendered line of the markets block.  The numeric payloads carry the
exact rational rates; Python round(rate, 4) for the spot line and the
truncating grouped-integer formatting of the crypto line are abstractions
over these values. -/
inductive MLine where
  | fxRate : List Char → List Char → ℚ → MLine
  | fxFail : MLine
  | crypto : ℚ → MLine
  | cryptoFail : MLine
deriving DecidableEq

/-- Model of Python str.strip on the leading side. -/
def lstrip (s : List Char) : List Char := s.dropWhile pySpace

/-- Model of `p.strip().upper()` (daily_report.py, line 115); str.upper on
the ASCII pair names is the character-wise uppercase. -/
def normPair (p : List Char) : List Char := (rstrip (lstrip p)).map Char.toUpper

/-- Observer on a fetch outcome: did the request raise. -/
def isErr (r : Except Unit (Option ℚ)) : Bool :=
  match r with
  | .error _ => true
  | .ok _ => false

/-- Model of the FX loop of markets_snapshot (daily_report.py, lines
113-123).  `fetch` maps the normalized six-letter pair to the upstream
outcome, where `Except.error` is a raised request or decode exception and
the inner Option is `r.get("rates", {}).get(quote)`.  The whole loop sits
inside one try block: a raised fetch aborts the remaining pairs and
appends the single FX failure line; a missing or zero (falsy) rate is
skipped silently, as is a pair whose normalized form is not six letters
long. -/
def fxLoop (fetch : List Char → Except Unit (Option ℚ)) : List (List Char) → List MLine
  | [] => []
  | p :: ps =>
    let q := normPair p
    if q.length = 6 then
      match fetch q with
      | .error _ => [MLine.fxFail]
      | .ok none => fxLoop fetch ps
      | .ok (some r) =>
          if r = 0 then fxLoop fetch ps
          else MLine.fxRate (q.take 3) (q.drop 3) r :: fxLoop fetch ps
    else fxLoop fetch ps

/-- Model of the crypto section (daily_report.py, lines 126-132), a second
independent try block around one fetch. -/
def cryptoLines (c : Except Unit (Option ℚ)) : List MLine :=
  match c with
  | .error _ => [MLine.cryptoFail]
  | .ok none => []
  | .ok (some v) => if v = 0 then [] else [MLine.crypto v]

/-- Model of the lines list built by markets_snapshot (daily_report.py,
lines 107-134); the final block is the header plus these lines (or the
no-data text when empty), which adds nothing the claims mention. -/
def markets_snapshot (pairs : List (List Char))
    (fetch : List Char → Except Unit (Option ℚ)) (c : Except Unit (Option ℚ)) :
    List MLine :=
  fxLoop fetch pairs ++ cryptoLines c

/-- Concrete upstream for the C7 counterexample: the EURUSD spot fetch
raises, every other fetch succeeds with rate 2. -/
def fetchCE (p : List Char) : Except Unit (Option ℚ) :=
  if p = "EURUSD".data then .error () else .ok (some 2)

/-- C7 counterexample: with the configured pairs EURUSD;EURGBP, a raised
EURUSD fetch leaves the block with the single FX failure line and no line
at all for EURGBP, although the EURGBP fetch itself would have succeeded;
the failure of one pair is not confined to its own line. -/
theorem C7_counterexample_fx_not_independent :
    isErr (fetchCE (normPair "EURGBP".data)) = false ∧
    markets_snapshot ["EURUSD".data, "EURGBP".data] fetchCE (Except.ok (some 3)) =
      [MLine.fxFail, MLine.crypto 3] := by
  constructor
  · decide
  · decide

/-- When no pair of a list raises, the FX loop distributes over list
concatenation. -/
theorem fxLoop_append_ok (fetch : List Char → Except Unit (Option ℚ)) :
    ∀ (ps1 ps2 : List (List Char)),
      (∀ q ∈ ps1, isErr (fetch (normPair q)) = false) →
      fxLoop fetch (ps1 ++ ps2) = fxLoop fetch ps1 ++ fxLoop fetch ps2 := by
  intro ps1
  induction ps1 with
  | nil => intro ps2 _; rfl
  | cons p ps ih =>
      intro ps2 hok
      have hokp := hok p (List.mem_cons_self _ _)
      have hoks : ∀ q ∈ ps, isErr (fetch (normPair q)) = false :=
        fun q hq => hok q (List.mem_cons_of_mem _ hq)
      rw [List.cons_append]
      by_cases h6 : (normPair p).length = 6
      · cases hf : fetch (normPair p) with
        | error e =>
            rw [hf] at hokp
            simp [isErr] at hokp
        | ok o =>
            cases o with
            | none =>
                simp only [fxLoop, h6, hf]
                exact ih ps2 hoks
            | some r =>
                by_cases hz : r = 0
                · simp only [fxLoop, h6, hf, hz]
                  simp only [if_true, if_pos rfl]
                  exact ih ps2 hoks
                · simp only [fxLoop, h6, hf, if_neg hz]
                  rw [ih ps2 hoks]
                  simp
      · simp only [fxLoop]
        rw [if_neg h6, if_neg h6]
        exact ih ps2 hoks

/-- C7 (amended): the crypto fetch fails independently (its lines are
appended unchanged whatever the FX outcomes), and within the FX section a
raised fetch for one pair replaces that pair and every later pair by the
single FX failure line while the lines of all earlier pairs are exactly
the ones produced without the failure. -/
theorem C7_fx_failure_scope (ps1 ps2 : List (List Char)) (p : List Char)
    (fetch : List Char → Except Unit (Option ℚ)) (c : Except Unit (Option ℚ))
    (hok : ∀ q ∈ ps1, isErr (fetch (normPair q)) = false)
    (hp6 : (normPair p).length = 6)
    (herr : isErr (fetch (normPair p)) = true) :
    markets_snapshot (ps1 ++ p :: ps2) fetch c =
      fxLoop fetch ps1 ++ MLine.fxFail :: cryptoLines c := by
  rw [markets_snapshot, fxLoop_append_ok fetch ps1 (p :: ps2) hok]
  have hfail : fxLoop fetch (p :: ps2) = [MLine.fxFail] := by
    cases hf : fetch (normPair p) with
    | error e => simp [fxLoop, hp6, hf]
    | ok o =>
        rw [hf] at herr
        simp [isErr] at herr
  rw [hfail]
  simp

/-- Witness for C7 (amended). -/
theorem C7_fx_failure_scope_witness :
    ((∀ q ∈ [("EURGBP".data : List Char)], isErr (fetchCE (normPair q)) = false) ∧
     (normPair "EURUSD".data).length = 6 ∧
     isErr (fetchCE (normPair "EURUSD".data)) = true) ∧
    markets_snapshot ["EURGBP".data, "EURUSD".data] fetchCE (Except.ok (some 3)) =
      fxLoop fetchCE ["EURGBP".data] ++ MLine.fxFail :: cryptoLines (Except.ok (some 3)) :=
  ⟨by decide,
   C7_fx_failure_scope ["EURGBP".data] [] "EURUSD".data fetchCE (Except.ok (some 3))
     (by decide) (by decide) (by decide)⟩
